import Mathlib

/-!
Shallow embedding of ProkaryoteAssembly/prokaryote_assemble_dir.py.

Files are modelled by their names (all candidates are immediate children of
one input directory, so the name determines the path).  A directory listing
is a list of child names; a missing directory is modelled by an absent
listing (Option), which pathlib's glob treats as empty.  Python string
containment (the in operator) is modelled
by occursIn, and the glob pattern given to pathlib is modelled by an
executable matcher for that exact pattern.
-/

/-- Boolean test that the first character list starts the second one. -/
def leadsWith : List Char → List Char → Bool
  | [], _ => true
  | _ :: _, [] => false
  | a :: as, b :: bs => a == b && leadsWith as bs

/-- Boolean test that the first character list occurs contiguously inside
the second one; this is the Python expression x in y on strings. -/
def occursInL (n : List Char) : List Char → Bool
  | [] => leadsWith n []
  | c :: t => leadsWith n (c :: t) || occursInL n t

/-- String version of occursInL: the Python substring test. -/
def occursIn (n h : String) : Bool :=
  occursInL n.data h.data

/-- Left-biased choice on options, matching how a later loop iteration
overwrites an earlier assignment when read right to left. -/
def optOr : Option α → Option α → Option α
  | some a, _ => some a
  | none, b => b

/-- The last element of the list satisfying p, if any: later elements take
precedence over earlier ones. -/
def lastMatch (p : String → Bool) : List String → Option String
  | [] => none
  | f :: t => optOr (lastMatch p t) (if p f then some f else none)

/-- Matcher for the tail f*q* of the glob pattern: a literal f followed by
anything containing a q. -/
def fqTailCheck : List Char → Bool
  | [] => false
  | c :: rest => c == 'f' && rest.contains 'q'

/-- Matcher for the glob pattern *.f*q* passed to pathlib in
retrieve_fastqgz (source line 71): anything, a literal dot, a literal f,
anything, a literal q, anything.  fnmatch on POSIX is case-sensitive. -/
def fqGlobL : List Char → Bool
  | [] => false
  | c :: rest => (c == '.' && fqTailCheck rest) || fqGlobL rest

/-- String version of the glob matcher. -/
def fqGlob (s : String) : Bool :=
  fqGlobL s.data

/-- The pattern the spec describes in words: the name contains an f, then
any characters, then a q, then any characters.  Kept separate from fqGlob
so the two can be compared. -/
def specFqContains : List Char → Bool
  | [] => false
  | c :: rest => (c == 'f' && rest.contains 'q') || specFqContains rest

/-- retrieve_fastqgz (source lines 67-73): list(directory.glob("*.f*q*")),
on the listing of an existing directory. -/
def retrieve_fastqgz (listing : List String) : List String :=
  listing.filter fqGlob

/-- retrieve_fastqgz on a possibly missing directory: pathlib's glob
selector guards with is_dir before scanning, so globbing an absent
directory yields an empty iterator and raises nothing; retrieve_fastqgz
therefore returns the empty list. -/
def retrieveFastqgzFS (dir : Option (List String)) : List String :=
  match dir with
  | none => []
  | some listing => retrieve_fastqgz listing

/-- The sample id of one file name: f.name.split('_')[0] (source line 85),
the longest underscore-free leading segment of the name. -/
def sampleIdOf (f : String) : String :=
  ⟨f.data.takeWhile (fun c => c != '_')⟩

/-- retrieve_sampleids (source lines 76-89): map sampleIdOf over the files
and de-duplicate (list(set(...)) in the source; the set gives an arbitrary
order, modelled here by one deterministic de-duplication). -/
def retrieve_sampleids (fastq_file_list : List String) : List String :=
  (fastq_file_list.map sampleIdOf).dedup

/-- The two mutable loop variables r1, r2 of get_readpair. -/
structure PairSlots where
  r1 : Option String
  r2 : Option String
deriving DecidableEq, Repr

/-- One iteration of the loop in get_readpair (source lines 102-108):
if sample_id in f.name: if forward_id in f.name: r1 = f
elif reverse_id in f.name: r2 = f. -/
def pairStep (sample_id forward_id reverse_id : String) (st : PairSlots)
    (f : String) : PairSlots :=
  if occursIn sample_id f then
    if occursIn forward_id f then { st with r1 := some f }
    else if occursIn reverse_id f then { st with r2 := some f }
    else st
  else st

/-- The loop of get_readpair run over the whole file list from the initial
state r1 = r2 = None. -/
def pairFold (sample_id : String) (fastq_file_list : List String)
    (forward_id reverse_id : String) : PairSlots :=
  fastq_file_list.foldl (pairStep sample_id forward_id reverse_id) ⟨none, none⟩

/-- get_readpair (source lines 92-113) together with the log lines it
emits: returns [r1, r2] when both slots were assigned, otherwise logs
"Could not pair <sample_id>" and returns None. -/
def get_readpairL (sample_id : String) (fastq_file_list : List String)
    (forward_id reverse_id : String) : Option (String × String) × List String :=
  match (pairFold sample_id fastq_file_list forward_id reverse_id).r1,
      (pairFold sample_id fastq_file_list forward_id reverse_id).r2 with
  | some a, some b => (some (a, b), [])
  | _, _ => (none, ["Could not pair " ++ sample_id])

/-- The return value of get_readpair alone. -/
def get_readpair (sample_id : String) (fastq_file_list : List String)
    (forward_id reverse_id : String) : Option (String × String) :=
  (get_readpairL sample_id fastq_file_list forward_id reverse_id).1

/-- The condition under which an iteration of get_readpair assigns f to the
forward slot. -/
def fwdMatch (sample_id forward_id : String) (f : String) : Bool :=
  occursIn sample_id f && occursIn forward_id f

/-- The condition under which an iteration of get_readpair assigns f to the
reverse slot: because of the elif, a file matching the forward marker is
never considered for the reverse slot. -/
def revMatch (sample_id forward_id reverse_id : String) (f : String) : Bool :=
  occursIn sample_id f && !occursIn forward_id f && occursIn reverse_id f

/-- os.makedirs(d, exist_ok=True) on a record of existing directories:
creating an existing directory is a no-op and raises no error. -/
def makedirsExistOk (dirs : List String) (d : String) : List String :=
  if d ∈ dirs then dirs else dirs ++ [d]

/-- Errors the orchestrator can die with. -/
inductive PyErr where
  /-- TypeError from r1, r2 = None when get_readpair returns None
  (source line 58). -/
  | typeErrorUnpackNone : PyErr
deriving DecidableEq, Repr

/-- Observable effects of one orchestrator run: directories created,
assembly_pipeline calls (fwd_reads, rev_reads, out_dir, sample_id),
clean_up calls, and log lines. -/
structure OrchState where
  dirs : List String
  pipelineCalls : List (String × String × String × String)
  cleanupCalls : List String
  logs : List String
deriving DecidableEq, Repr

/-- The per-sample loop of assemble_dir (source lines 57-63).  For each
sample id: r1, r2 = get_readpair(...) - which raises TypeError when
get_readpair returned None - then makedirs of the per-sample directory,
then assembly_pipeline, then clean_up. -/
def orchLoop (fastq_file_list : List String) (out_dir fwd_id rev_id : String) :
    OrchState → List String → Except (PyErr × OrchState) OrchState
  | st, [] => Except.ok st
  | st, sid :: rest =>
    match get_readpairL sid fastq_file_list fwd_id rev_id with
    | (some (a, b), _) =>
      let sampleOut := out_dir ++ "/" ++ sid
      orchLoop fastq_file_list out_dir fwd_id rev_id
        { dirs := makedirsExistOk st.dirs sampleOut
          pipelineCalls := st.pipelineCalls ++ [(a, b, sampleOut, sid)]
          cleanupCalls := st.cleanupCalls ++ [sampleOut]
          logs := st.logs } rest
    | (none, lg) =>
      Except.error (PyErr.typeErrorUnpackNone, { st with logs := st.logs ++ lg })

/-- assemble_dir (source lines 45-64) after CLI parsing: create the output
root with exist_ok, scan the input directory (the scan never fails, even
for a missing directory), derive the sample ids, and run the per-sample
loop.  The error branch carries the effects observed up to the uncaught
exception. -/
def assembleRun (input_listing : Option (List String))
    (out_dir fwd_id rev_id : String) : Except (PyErr × OrchState) OrchState :=
  let st0 : OrchState :=
    { dirs := makedirsExistOk [] out_dir
      pipelineCalls := []
      cleanupCalls := []
      logs := [] }
  orchLoop (retrieveFastqgzFS input_listing) out_dir fwd_id rev_id st0
    (retrieve_sampleids (retrieveFastqgzFS input_listing))

/-- The file lists of claim C7: for each triple (id, s, t) the two files
id_R1s and id_R2t. -/
def pairedFiles (samples : List (String × String × String)) : List String :=
  samples.flatMap (fun s => [s.1 ++ "_R1" ++ s.2.1, s.1 ++ "_R2" ++ s.2.2])

theorem leadsWith_iff (n : List Char) : ∀ h, leadsWith n h = true ↔ ∃ t, h = n ++ t := by
  induction n with
  | nil =>
    intro h
    simp [leadsWith]
  | cons a as ih =>
    intro h
    cases h with
    | nil =>
      simp [leadsWith]
    | cons b bs =>
      rw [show leadsWith (a :: as) (b :: bs) = (a == b && leadsWith as bs) from rfl,
        Bool.and_eq_true, beq_iff_eq]
      constructor
      · rintro ⟨rfl, h2⟩
        obtain ⟨t, rfl⟩ := (ih bs).mp h2
        exact ⟨t, rfl⟩
      · rintro ⟨t, ht⟩
        injection ht with h1 h2
        exact ⟨h1.symm, (ih bs).mpr ⟨t, h2⟩⟩

theorem occursInL_iff (n : List Char) : ∀ h, occursInL n h = true ↔ ∃ a b, h = a ++ n ++ b := by
  intro h
  induction h with
  | nil =>
    rw [show occursInL n [] = leadsWith n [] from rfl, leadsWith_iff]
    constructor
    · rintro ⟨t, ht⟩
      obtain ⟨rfl, rfl⟩ := (List.append_eq_nil).mp ht.symm
      exact ⟨[], [], rfl⟩
    · rintro ⟨a, b, hab⟩
      obtain ⟨h1, rfl⟩ := (List.append_eq_nil).mp hab.symm
      obtain ⟨rfl, rfl⟩ := (List.append_eq_nil).mp h1
      exact ⟨[], rfl⟩
  | cons c t ih =>
    rw [show occursInL n (c :: t) = (leadsWith n (c :: t) || occursInL n t) from rfl,
      Bool.or_eq_true, leadsWith_iff, ih]
    constructor
    · rintro (⟨b, hb⟩ | ⟨a, b, hab⟩)
      · exact ⟨[], b, by simpa using hb⟩
      · exact ⟨c :: a, b, by rw [hab]; rfl⟩
    · rintro ⟨a, b, hab⟩
      cases a with
      | nil => exact Or.inl ⟨b, by simpa using hab⟩
      | cons x a2 =>
        injection hab with h1 h2
        exact Or.inr ⟨a2, b, h2⟩

theorem occursIn_iff (n h : String) : occursIn n h = true ↔ ∃ a b, h.data = a ++ n.data ++ b :=
  occursInL_iff n.data h.data

theorem optOr_none (a : Option α) : optOr a none = a := by
  cases a <;> rfl

theorem optOr_assoc (a b c : Option α) : optOr (optOr a b) c = optOr a (optOr b c) := by
  cases a <;> rfl

theorem optOr_isSome (a b : Option α) : (optOr a b).isSome = (a.isSome || b.isSome) := by
  cases a <;> cases b <;> rfl

theorem pairStep_r1 (sid fwd rev : String) (st : PairSlots) (f : String) :
    (pairStep sid fwd rev st f).r1 =
      optOr (if fwdMatch sid fwd f then some f else none) st.r1 := by
  by_cases h1 : occursIn sid f = true <;> by_cases h2 : occursIn fwd f = true <;>
    by_cases h3 : occursIn rev f = true <;>
      simp [pairStep, fwdMatch, h1, h2, h3, optOr]

theorem pairStep_r2 (sid fwd rev : String) (st : PairSlots) (f : String) :
    (pairStep sid fwd rev st f).r2 =
      optOr (if revMatch sid fwd rev f then some f else none) st.r2 := by
  by_cases h1 : occursIn sid f = true <;> by_cases h2 : occursIn fwd f = true <;>
    by_cases h3 : occursIn rev f = true <;>
      simp [pairStep, revMatch, h1, h2, h3, optOr]

theorem foldl_pairStep_r1 (sid fwd rev : String) :
    ∀ (l : List String) (st : PairSlots),
      (l.foldl (pairStep sid fwd rev) st).r1 =
        optOr (lastMatch (fwdMatch sid fwd) l) st.r1 := by
  intro l
  induction l with
  | nil =>
    intro st
    rfl
  | cons f t ih =>
    intro st
    rw [List.foldl_cons, ih, pairStep_r1,
      show lastMatch (fwdMatch sid fwd) (f :: t) =
        optOr (lastMatch (fwdMatch sid fwd) t)
          (if fwdMatch sid fwd f then some f else none) from rfl,
      optOr_assoc]

theorem foldl_pairStep_r2 (sid fwd rev : String) :
    ∀ (l : List String) (st : PairSlots),
      (l.foldl (pairStep sid fwd rev) st).r2 =
        optOr (lastMatch (revMatch sid fwd rev) l) st.r2 := by
  intro l
  induction l with
  | nil =>
    intro st
    rfl
  | cons f t ih =>
    intro st
    rw [List.foldl_cons, ih, pairStep_r2,
      show lastMatch (revMatch sid fwd rev) (f :: t) =
        optOr (lastMatch (revMatch sid fwd rev) t)
          (if revMatch sid fwd rev f then some f else none) from rfl,
      optOr_assoc]

theorem pairFold_r1 (sid : String) (l : List String) (fwd rev : String) :
    (pairFold sid l fwd rev).r1 = lastMatch (fwdMatch sid fwd) l := by
  rw [pairFold, foldl_pairStep_r1]
  exact optOr_none _

theorem pairFold_r2 (sid : String) (l : List String) (fwd rev : String) :
    (pairFold sid l fwd rev).r2 = lastMatch (revMatch sid fwd rev) l := by
  rw [pairFold, foldl_pairStep_r2]
  exact optOr_none _

theorem lastMatch_some (p : String → Bool) :
    ∀ l a, lastMatch p l = some a → a ∈ l ∧ p a = true := by
  intro l
  induction l with
  | nil =>
    intro a h
    exact absurd h (by simp [lastMatch])
  | cons f t ih =>
    intro a h
    rw [show lastMatch p (f :: t) =
      optOr (lastMatch p t) (if p f then some f else none) from rfl] at h
    cases hm : lastMatch p t with
    | some b =>
      rw [hm] at h
      injection h with hba
      obtain ⟨hmem, hp⟩ := ih b hm
      exact ⟨by rw [← hba]; exact List.mem_cons_of_mem f hmem, by rw [← hba]; exact hp⟩
    | none =>
      rw [hm] at h
      by_cases hp : p f = true
      · rw [if_pos hp] at h
        injection h with hfa
        exact ⟨by rw [← hfa]; exact List.mem_cons_self f t, by rw [← hfa]; exact hp⟩
      · rw [if_neg hp] at h
        exact absurd h (by simp [optOr])

theorem lastMatch_isSome_iff (p : String → Bool) :
    ∀ l : List String, (lastMatch p l).isSome = true ↔ ∃ x, x ∈ l ∧ p x = true := by
  intro l
  induction l with
  | nil =>
    simp [lastMatch]
  | cons f t ih =>
    rw [show lastMatch p (f :: t) =
      optOr (lastMatch p t) (if p f then some f else none) from rfl, optOr_isSome,
      Bool.or_eq_true, ih]
    constructor
    · rintro (⟨x, hx, hp⟩ | hs)
      · exact ⟨x, List.mem_cons_of_mem f hx, hp⟩
      · by_cases hp : p f = true
        · exact ⟨f, List.mem_cons_self f t, hp⟩
        · rw [if_neg hp] at hs
          exact absurd hs (by simp)
    · rintro ⟨x, hx, hp⟩
      rcases List.mem_cons.mp hx with rfl | hx2
      · exact Or.inr (by rw [if_pos hp]; rfl)
      · exact Or.inl ⟨x, hx2, hp⟩

theorem getLast?_optOr (a : α) : ∀ l : List α, (a :: l).getLast? = optOr l.getLast? (some a) := by
  intro l
  induction l generalizing a with
  | nil =>
    rfl
  | cons b t ih =>
    rw [List.getLast?_cons_cons, ih b, optOr_assoc]
    rfl

theorem lastMatch_eq_filter_getLast? (p : String → Bool) :
    ∀ l, lastMatch p l = (l.filter p).getLast? := by
  intro l
  induction l with
  | nil =>
    rfl
  | cons f t ih =>
    rw [show lastMatch p (f :: t) =
      optOr (lastMatch p t) (if p f then some f else none) from rfl, ih, List.filter_cons]
    by_cases hp : p f = true
    · rw [if_pos hp, if_pos hp, getLast?_optOr]
    · rw [if_neg hp, if_neg hp, optOr_none]

theorem get_readpair_eq_some_iff (sid : String) (l : List String) (fwd rev a b : String) :
    get_readpair sid l fwd rev = some (a, b) ↔
      lastMatch (fwdMatch sid fwd) l = some a ∧
        lastMatch (revMatch sid fwd rev) l = some b := by
  unfold get_readpair get_readpairL
  rw [pairFold_r1, pairFold_r2]
  cases lastMatch (fwdMatch sid fwd) l <;> cases lastMatch (revMatch sid fwd rev) l <;> simp

theorem get_readpair_isSome_iff (sid : String) (l : List String) (fwd rev : String) :
    (get_readpair sid l fwd rev).isSome = true ↔
      (∃ x, x ∈ l ∧ fwdMatch sid fwd x = true) ∧
        (∃ y, y ∈ l ∧ revMatch sid fwd rev y = true) := by
  rw [← lastMatch_isSome_iff (fwdMatch sid fwd) l,
    ← lastMatch_isSome_iff (revMatch sid fwd rev) l]
  unfold get_readpair get_readpairL
  rw [pairFold_r1, pairFold_r2]
  cases lastMatch (fwdMatch sid fwd) l <;> cases lastMatch (revMatch sid fwd rev) l <;> simp

theorem get_readpairL_log_of_none (sid : String) (l : List String) (fwd rev : String)
    (h : (get_readpairL sid l fwd rev).1 = none) :
    (get_readpairL sid l fwd rev).2 = ["Could not pair " ++ sid] := by
  revert h
  unfold get_readpairL
  cases (pairFold sid l fwd rev).r1 <;> cases (pairFold sid l fwd rev).r2 <;>
    simp

theorem get_readpairL_log_of_some (sid : String) (l : List String) (fwd rev : String)
    (h : (get_readpairL sid l fwd rev).1.isSome = true) :
    (get_readpairL sid l fwd rev).2 = [] := by
  revert h
  unfold get_readpairL
  cases (pairFold sid l fwd rev).r1 <;> cases (pairFold sid l fwd rev).r2 <;>
    simp

theorem get_readpair_valid (sid : String) (l : List String) (fwd rev a b : String)
    (h : get_readpair sid l fwd rev = some (a, b)) :
    a ∈ l ∧ occursIn sid a = true ∧ occursIn fwd a = true ∧
      b ∈ l ∧ occursIn sid b = true ∧ occursIn fwd b = false ∧
        occursIn rev b = true := by
  obtain ⟨h1, h2⟩ := (get_readpair_eq_some_iff sid l fwd rev a b).mp h
  obtain ⟨ma, pa⟩ := lastMatch_some _ l a h1
  obtain ⟨mb, pb⟩ := lastMatch_some _ l b h2
  rw [fwdMatch, Bool.and_eq_true] at pa
  rw [revMatch, Bool.and_eq_true, Bool.and_eq_true, Bool.not_eq_true'] at pb
  exact ⟨ma, pa.1, pa.2, mb, pb.1.1, pb.1.2, pb.2⟩

theorem takeWhile_all (p : α → Bool) :
    ∀ l : List α, (∀ x ∈ l, p x = true) → l.takeWhile p = l := by
  intro l
  induction l with
  | nil =>
    intro _
    rfl
  | cons a t ih =>
    intro h
    rw [List.takeWhile_cons, if_pos (h a (List.mem_cons_self a t)),
      ih (fun x hx => h x (List.mem_cons_of_mem a hx))]

theorem takeWhile_append_stop (p : α → Bool) (c : α) (hc : p c = false) :
    ∀ (a b : List α), (∀ x ∈ a, p x = true) → (a ++ c :: b).takeWhile p = a := by
  intro a
  induction a with
  | nil =>
    intro b _
    rw [List.nil_append, List.takeWhile_cons, if_neg (by simp [hc])]
  | cons x t ih =>
    intro b h
    rw [List.cons_append, List.takeWhile_cons,
      if_pos (h x (List.mem_cons_self x t)),
      ih b (fun y hy => h y (List.mem_cons_of_mem x hy))]

theorem takeWhile_mem (p : α → Bool) :
    ∀ (l : List α) (x : α), x ∈ l.takeWhile p → p x = true := by
  intro l
  induction l with
  | nil =>
    intro x hx
    exact absurd hx (List.not_mem_nil x)
  | cons a t ih =>
    intro x hx
    rw [List.takeWhile_cons] at hx
    by_cases hp : p a = true
    · rw [if_pos hp] at hx
      rcases List.mem_cons.mp hx with rfl | hx2
      · exact hp
      · exact ih x hx2
    · rw [if_neg hp] at hx
      exact absurd hx (List.not_mem_nil x)

theorem takeWhile_decomp (p : α → Bool) :
    ∀ l : List α, ∃ rest, l = l.takeWhile p ++ rest ∧
      (rest = [] ∨ ∃ c t, rest = c :: t ∧ p c = false) := by
  intro l
  induction l with
  | nil =>
    exact ⟨[], rfl, Or.inl rfl⟩
  | cons a t ih =>
    cases hpa : p a with
    | true =>
      obtain ⟨rest, ht, hr⟩ := ih
      refine ⟨rest, ?_, hr⟩
      rw [List.takeWhile_cons, if_pos hpa, List.cons_append, ← ht]
    | false =>
      refine ⟨a :: t, ?_, Or.inr ⟨a, t, rfl, hpa⟩⟩
      rw [List.takeWhile_cons, if_neg (by simp [hpa]), List.nil_append]

theorem sampleIdOf_eq_self (f : String) (h : '_' ∉ f.data) : sampleIdOf f = f := by
  have h2 : f.data.takeWhile (fun c => c != '_') = f.data :=
    takeWhile_all _ f.data (fun x hx =>
      bne_iff_ne.mpr (fun heq => h (heq ▸ hx)))
  show String.mk (f.data.takeWhile (fun c => c != '_')) = f
  rw [h2]

theorem sampleIdOf_decomp (f : String) :
    ∃ rest, f.data = (sampleIdOf f).data ++ rest ∧ '_' ∉ (sampleIdOf f).data ∧
      (rest = [] ∨ ∃ t, rest = '_' :: t) := by
  obtain ⟨rest, hr, hc⟩ := takeWhile_decomp (fun c => c != '_') f.data
  refine ⟨rest, hr, ?_, ?_⟩
  · intro hmem
    have := takeWhile_mem (fun c => c != '_') f.data '_' hmem
    simp at this
  · rcases hc with rfl | ⟨c, t, rfl, hpc⟩
    · exact Or.inl rfl
    · refine Or.inr ⟨t, ?_⟩
      have : c = '_' := by simpa using hpc
      rw [this]

theorem sampleIdOf_underscore_append (id s m : String) (tail : List Char)
    (hm : m.data = '_' :: tail) (h : '_' ∉ id.data) :
    sampleIdOf (id ++ m ++ s) = id := by
  show String.mk ((id ++ m ++ s).data.takeWhile (fun c => c != '_')) = id
  have hdata : (id ++ m ++ s).data = id.data ++ '_' :: (tail ++ s.data) := by
    rw [String.data_append, String.data_append, hm, List.append_assoc, List.cons_append]
  rw [hdata, takeWhile_append_stop (fun c => c != '_') '_' (by simp) id.data _
    (fun x hx => bne_iff_ne.mpr (fun heq => h (heq ▸ hx)))]

theorem occursIn_sandwich (n a b : String) : occursIn n (a ++ n ++ b) = true :=
  (occursIn_iff n (a ++ n ++ b)).mpr ⟨a.data, b.data, by simp⟩

theorem occursIn_self_lead (n m s : String) : occursIn n (n ++ m ++ s) = true :=
  (occursIn_iff n (n ++ m ++ s)).mpr ⟨[], m.data ++ s.data, by simp⟩

theorem contains_char_iff (l : List Char) (c : Char) : l.contains c = true ↔ c ∈ l :=
  List.elem_iff

theorem fqTailCheck_iff (l : List Char) :
    fqTailCheck l = true ↔ ∃ b, l = 'f' :: b ∧ 'q' ∈ b := by
  cases l with
  | nil =>
    simp [fqTailCheck]
  | cons c rest =>
    rw [show fqTailCheck (c :: rest) = (c == 'f' && rest.contains 'q') from rfl,
      Bool.and_eq_true, beq_iff_eq, contains_char_iff]
    constructor
    · rintro ⟨rfl, h2⟩
      exact ⟨rest, rfl, h2⟩
    · rintro ⟨b, hb, hq⟩
      injection hb with h1 h2
      subst h1
      subst h2
      exact ⟨rfl, hq⟩

theorem fqGlobL_iff : ∀ s, fqGlobL s = true ↔
    ∃ a b, s = a ++ ('.' :: 'f' :: b) ∧ 'q' ∈ b := by
  intro s
  induction s with
  | nil =>
    constructor
    · intro h
      exact absurd h (by simp [fqGlobL])
    · rintro ⟨a, b, hab, _⟩
      exact absurd hab.symm (by simp)
  | cons c rest ih =>
    rw [show fqGlobL (c :: rest) = ((c == '.' && fqTailCheck rest) || fqGlobL rest) from rfl,
      Bool.or_eq_true, Bool.and_eq_true, beq_iff_eq, fqTailCheck_iff, ih]
    constructor
    · rintro (⟨rfl, b, rfl, hq⟩ | ⟨a, b, rfl, hq⟩)
      · exact ⟨[], b, rfl, hq⟩
      · exact ⟨c :: a, b, rfl, hq⟩
    · rintro ⟨a, b, hab, hq⟩
      cases a with
      | nil =>
        injection hab with h1 h2
        subst h1
        exact Or.inl ⟨rfl, b, h2, hq⟩
      | cons x a2 =>
        injection hab with h1 h2
        subst h1
        exact Or.inr ⟨a2, b, h2, hq⟩

theorem fqGlob_iff (s : String) :
    fqGlob s = true ↔ ∃ a b c, s.data = a ++ ('.' :: 'f' :: (b ++ 'q' :: c)) := by
  rw [show fqGlob s = fqGlobL s.data from rfl, fqGlobL_iff]
  constructor
  · rintro ⟨a, b, hab, hq⟩
    obtain ⟨b1, b2, rfl⟩ := List.append_of_mem hq
    exact ⟨a, b1, b2, hab⟩
  · rintro ⟨a, b, c, habc⟩
    exact ⟨a, b ++ 'q' :: c, habc, List.mem_append.mpr (Or.inr (List.mem_cons_self 'q' c))⟩

theorem dedup_flat_doubles :
    ∀ ids : List String, ids.Nodup → (ids.flatMap (fun i => [i, i])).dedup = ids := by
  intro ids
  induction ids with
  | nil =>
    intro _
    rfl
  | cons i t ih =>
    intro h
    obtain ⟨hi, ht⟩ := List.nodup_cons.mp h
    have hmem : i ∉ t.flatMap (fun j => [j, j]) := by
      intro hm
      obtain ⟨j, hj, hij⟩ := List.mem_flatMap.mp hm
      have : i = j := by simpa using hij
      exact hi (this ▸ hj)
    show ((i :: i :: t.flatMap fun j => [j, j]).dedup) = i :: t
    rw [List.dedup_cons_of_mem (List.mem_cons_self i _),
      List.dedup_cons_of_not_mem hmem, ih ht]

theorem map_sampleIdOf_paired :
    ∀ samples : List (String × String × String),
      (∀ s ∈ samples, '_' ∉ (Prod.fst s).data) →
      (pairedFiles samples).map sampleIdOf = samples.flatMap (fun s => [s.1, s.1]) := by
  intro samples
  induction samples with
  | nil =>
    intro _
    rfl
  | cons s t ih =>
    intro h
    have h1 : '_' ∉ s.1.data := h s (List.mem_cons_self s t)
    show sampleIdOf (s.1 ++ "_R1" ++ s.2.1) :: sampleIdOf (s.1 ++ "_R2" ++ s.2.2) ::
        (pairedFiles t).map sampleIdOf = s.1 :: s.1 :: t.flatMap (fun s => [s.1, s.1])
    rw [sampleIdOf_underscore_append s.1 s.2.1 "_R1" ['R', '1'] rfl h1,
      sampleIdOf_underscore_append s.1 s.2.2 "_R2" ['R', '2'] rfl h1,
      ih (fun x hx => h x (List.mem_cons_of_mem s hx))]

theorem mem_pairedFiles_fwd (samples : List (String × String × String))
    (s : String × String × String) (hs : s ∈ samples) :
    s.1 ++ "_R1" ++ s.2.1 ∈ pairedFiles samples :=
  List.mem_flatMap.mpr ⟨s, hs, List.mem_cons_self _ _⟩

theorem mem_pairedFiles_rev (samples : List (String × String × String))
    (s : String × String × String) (hs : s ∈ samples) :
    s.1 ++ "_R2" ++ s.2.2 ∈ pairedFiles samples :=
  List.mem_flatMap.mpr ⟨s, hs, List.mem_cons_of_mem _ (List.mem_cons_self _ _)⟩

theorem get_readpair_none_of_rev_subsumed (sid fwd rev : String) (l : List String)
    (h : ∀ g, g ∈ l → occursIn rev g = true → occursIn fwd g = true) :
    get_readpair sid l fwd rev = none := by
  have hnone : lastMatch (revMatch sid fwd rev) l = none := by
    cases hm : lastMatch (revMatch sid fwd rev) l with
    | none => rfl
    | some g =>
      obtain ⟨hg, hp⟩ := lastMatch_some _ l g hm
      rw [revMatch, Bool.and_eq_true, Bool.and_eq_true, Bool.not_eq_true'] at hp
      rw [h g hg hp.2] at hp
      exact absurd hp.1.2 (by simp)
  unfold get_readpair get_readpairL
  rw [pairFold_r2, hnone]
  cases (pairFold sid l fwd rev).r1 <;> rfl

/-- C1: the spec says that when pairing fails the orchestrator logs and
continues to the next sample id; in the code get_readpair logs and returns
None, but the caller immediately unpacks the result (r1, r2 = ...), so a
pairing failure raises TypeError and aborts the whole batch.  On the
spec's own end-to-end scenario (S1 fully paired, S2 missing its reverse
file) the run produces the S1 directory and pipeline call, logs the S2
pairing failure, and then dies instead of completing. -/
theorem c1_crash_on_unpaired :
    assembleRun (some ["S1_R1.fastq.gz", "S1_R2.fastq.gz", "S2_R1.fastq.gz"])
        "out" "_R1" "_R2" =
      Except.error (PyErr.typeErrorUnpackNone,
        { dirs := ["out", "out/S1"]
          pipelineCalls := [("S1_R1.fastq.gz", "S1_R2.fastq.gz", "out/S1", "S1")]
          cleanupCalls := ["out/S1"]
          logs := ["Could not pair S2"] }) :=
  rfl

/-- C2 counterexample: the claim's pattern (an f, then anything, then a q)
accepts the file name fastq, but the glob *.f*q* used by retrieve_fastqgz
requires a literal dot immediately before the f, so the scanner does not
return that file. -/
theorem c2_counterexample :
    (∃ a b c, ("fastq" : String).data = a ++ ('f' :: (b ++ 'q' :: c))) ∧
      ("fastq" : String) ∈ (["fastq"] : List String) ∧
      ("fastq" : String) ∉ retrieve_fastqgz ["fastq"] :=
  ⟨⟨[], ['a', 's', 't'], [], by decide⟩, by decide, by decide⟩

/-- C2 (amended): for every directory listing, the scanner returns exactly
the immediate children whose name matches the case-sensitive glob *.f*q*,
that is, whose name contains a literal dot, immediately followed by f,
then any characters, then q, then any characters; the result has no
duplicates when the listing has none. -/
theorem c2_scanner_exact (l : List String) (name : String) :
    (name ∈ retrieve_fastqgz l ↔ name ∈ l ∧ fqGlob name = true) ∧
      (fqGlob name = true ↔
        ∃ a b c, name.data = a ++ ('.' :: 'f' :: (b ++ 'q' :: c))) ∧
      (l.Nodup → (retrieve_fastqgz l).Nodup) :=
  ⟨List.mem_filter, fqGlob_iff name, fun h => h.filter fqGlob⟩

/-- C2 witness at a concrete listing. -/
theorem c2_scanner_exact_witness :
    (("x.fq" : String) ∈ retrieve_fastqgz ["x.fq"] ↔
      ("x.fq" : String) ∈ (["x.fq"] : List String) ∧ fqGlob "x.fq" = true) ∧
      (fqGlob "x.fq" = true ↔
        ∃ a b c, ("x.fq" : String).data = a ++ ('.' :: 'f' :: (b ++ 'q' :: c))) ∧
      (retrieve_fastqgz ["x.fq"]).Nodup := by
  obtain ⟨h1, h2, h3⟩ := c2_scanner_exact ["x.fq"] "x.fq"
  exact ⟨h1, h2, h3 (by decide)⟩

/-- C3 counterexample: with sample id S and the default markers, the last
file in the collection whose name contains both the sample id and the
reverse marker is S_R1_R2.fq, yet get_readpair returns S_R2x.fq in the
reverse slot, because the elif never considers a file that also contains
the forward marker. -/
theorem c3_counterexample :
    lastMatch (fun f => occursIn "S" f && occursIn "_R2" f)
        ["S_R2x.fq", "S_R1_R2.fq"] = some "S_R1_R2.fq" ∧
      get_readpair "S" ["S_R2x.fq", "S_R1_R2.fq"] "_R1" "_R2" =
        some ("S_R1_R2.fq", "S_R2x.fq") ∧
      ("S_R1_R2.fq" : String) ≠ "S_R2x.fq" :=
  ⟨by decide, by decide, by decide⟩

/-- C3 (amended): both slots of get_readpair follow a last-write-wins
policy over the candidates the loop actually assigns to them: the forward
slot holds the last file containing the sample id and the forward marker;
the reverse slot holds the last file containing the sample id and the
reverse marker but not the forward marker (forward takes precedence via
the elif).  Each slot equals the last element of the filtered list. -/
theorem c3_last_write_wins (sid fwd rev : String) (l : List String) :
    (pairFold sid l fwd rev).r1 = lastMatch (fwdMatch sid fwd) l ∧
      (pairFold sid l fwd rev).r2 = lastMatch (revMatch sid fwd rev) l ∧
      lastMatch (fwdMatch sid fwd) l = (l.filter (fwdMatch sid fwd)).getLast? ∧
      lastMatch (revMatch sid fwd rev) l = (l.filter (revMatch sid fwd rev)).getLast? :=
  ⟨pairFold_r1 sid l fwd rev, pairFold_r2 sid l fwd rev,
    lastMatch_eq_filter_getLast? _ l, lastMatch_eq_filter_getLast? _ l⟩

/-- C4: every scanned file's derived sample id is the prefix of its name
up to and excluding the first underscore (the whole name when there is no
underscore), it appears in the derived collection, and the derived
collection has no duplicates. -/
theorem c4_sampleid_derivation (l : List String) (f : String) (hf : f ∈ l) :
    sampleIdOf f ∈ retrieve_sampleids l ∧
      ('_' ∉ f.data → sampleIdOf f = f) ∧
      (∃ rest, f.data = (sampleIdOf f).data ++ rest ∧ '_' ∉ (sampleIdOf f).data ∧
        (rest = [] ∨ ∃ t, rest = '_' :: t)) ∧
      (retrieve_sampleids l).Nodup := by
  refine ⟨?_, fun h => sampleIdOf_eq_self f h, sampleIdOf_decomp f, List.nodup_dedup _⟩
  exact List.mem_dedup.mpr (List.mem_map_of_mem sampleIdOf hf)

/-- C4 witness at a concrete file list. -/
theorem c4_sampleid_derivation_witness :
    sampleIdOf "S1_R1.fq" ∈ retrieve_sampleids ["S1_R1.fq"] ∧
      ('_' ∉ ("S1_R1.fq" : String).data → sampleIdOf "S1_R1.fq" = "S1_R1.fq") ∧
      (∃ rest, ("S1_R1.fq" : String).data = (sampleIdOf "S1_R1.fq").data ++ rest ∧
        '_' ∉ (sampleIdOf "S1_R1.fq").data ∧ (rest = [] ∨ ∃ t, rest = '_' :: t)) ∧
      (retrieve_sampleids ["S1_R1.fq"]).Nodup :=
  c4_sampleid_derivation ["S1_R1.fq"] "S1_R1.fq" (by decide)

/-- C5: get_readpair returns a pair exactly when both a forward candidate
(name contains the sample id and the forward marker) and a reverse
candidate (name contains the sample id and the reverse marker but not the
forward marker) exist in the collection; otherwise it returns None and
reports the failure with the non-fatal log line "Could not pair"; on
success nothing is logged. -/
theorem c5_pair_iff_both_resolve (sid : String) (l : List String) (fwd rev : String) :
    ((get_readpair sid l fwd rev).isSome = true ↔
      (∃ x, x ∈ l ∧ fwdMatch sid fwd x = true) ∧
        (∃ y, y ∈ l ∧ revMatch sid fwd rev y = true)) ∧
      (get_readpair sid l fwd rev = none →
        (get_readpairL sid l fwd rev).2 = ["Could not pair " ++ sid]) ∧
      ((get_readpair sid l fwd rev).isSome = true →
        (get_readpairL sid l fwd rev).2 = []) :=
  ⟨get_readpair_isSome_iff sid l fwd rev,
    fun h => get_readpairL_log_of_none sid l fwd rev h,
    fun h => get_readpairL_log_of_some sid l fwd rev h⟩

/-- C5 witness: a sample with only a forward file is reported unpaired. -/
theorem c5_pair_iff_both_resolve_witness :
    (get_readpairL "S2" ["S2_R1.fq"] "_R1" "_R2").2 = ["Could not pair " ++ "S2"] :=
  (c5_pair_iff_both_resolve "S2" ["S2_R1.fq"] "_R1" "_R2").2.1 (by decide)

/-- C6: whenever get_readpair returns a pair, both members come from the
input collection, both names contain the sample id as a substring, the
forward member's name contains the forward marker and the reverse member's
name contains the reverse marker; the pair constructor is only reached
when both slots are resolved. -/
theorem c6_pair_invariant (sid : String) (l : List String) (fwd rev a b : String)
    (h : get_readpair sid l fwd rev = some (a, b)) :
    a ∈ l ∧ b ∈ l ∧
      (∃ x y, a.data = x ++ sid.data ++ y) ∧
      (∃ x y, a.data = x ++ fwd.data ++ y) ∧
      (∃ x y, b.data = x ++ sid.data ++ y) ∧
      (∃ x y, b.data = x ++ rev.data ++ y) := by
  obtain ⟨ma, sa, fa, mb, sb, _, rb⟩ := get_readpair_valid sid l fwd rev a b h
  exact ⟨ma, mb, (occursIn_iff _ _).mp sa, (occursIn_iff _ _).mp fa,
    (occursIn_iff _ _).mp sb, (occursIn_iff _ _).mp rb⟩

/-- C6 witness at a concrete paired sample. -/
theorem c6_pair_invariant_witness :
    ("S1_R1.fq" : String) ∈ (["S1_R1.fq", "S1_R2.fq"] : List String) ∧
      ("S1_R2.fq" : String) ∈ (["S1_R1.fq", "S1_R2.fq"] : List String) ∧
      (∃ x y, ("S1_R1.fq" : String).data = x ++ ("S1" : String).data ++ y) ∧
      (∃ x y, ("S1_R1.fq" : String).data = x ++ ("_R1" : String).data ++ y) ∧
      (∃ x y, ("S1_R2.fq" : String).data = x ++ ("S1" : String).data ++ y) ∧
      (∃ x y, ("S1_R2.fq" : String).data = x ++ ("_R2" : String).data ++ y) :=
  c6_pair_invariant "S1" ["S1_R1.fq", "S1_R2.fq"] "_R1" "_R2"
    "S1_R1.fq" "S1_R2.fq" (by decide)

/-- C7 counterexample: for the two distinct ids A_B and A_C (K = 2), the
derived sample id set of the four files A_B_R1.fq, A_B_R2.fq, A_C_R1.fq,
A_C_R2.fq is just [A], because the sample id stops at the first
underscore, which here lies inside the id itself. -/
theorem c7_counterexample :
    retrieve_sampleids (pairedFiles [("A_B", ".fq", ".fq"), ("A_C", ".fq", ".fq")]) =
        ["A"] ∧
      (retrieve_sampleids
        (pairedFiles [("A_B", ".fq", ".fq"), ("A_C", ".fq", ".fq")])).length ≠ 2 :=
  ⟨by decide, by decide⟩

/-- C7 (amended): for files id_R1s and id_R2t over K distinct ids, where
each id is underscore-free and no reverse file's name contains the forward
marker, the derived sample id set has exactly K members and get_readpair
resolves every id to a valid pair: both members are files of the
collection, contain the id, and carry their slot's marker. -/
theorem c7_batch_pairing (samples : List (String × String × String))
    (hnodup : (samples.map Prod.fst).Nodup)
    (hid : ∀ s ∈ samples, '_' ∉ (Prod.fst s).data)
    (hrev : ∀ s ∈ samples, occursIn "_R1" (s.1 ++ "_R2" ++ s.2.2) = false) :
    (retrieve_sampleids (pairedFiles samples)).length = samples.length ∧
      ∀ s ∈ samples, ∃ a b,
        get_readpair s.1 (pairedFiles samples) "_R1" "_R2" = some (a, b) ∧
          a ∈ pairedFiles samples ∧ occursIn s.1 a = true ∧
          occursIn "_R1" a = true ∧ b ∈ pairedFiles samples ∧
          occursIn s.1 b = true ∧ occursIn "_R2" b = true := by
  constructor
  · rw [retrieve_sampleids, map_sampleIdOf_paired samples hid,
      show (samples.flatMap fun s => [s.1, s.1]) =
        ((samples.map Prod.fst).flatMap fun i => [i, i]) from
        (List.flatMap_map Prod.fst (fun i => [i, i]) samples).symm,
      dedup_flat_doubles _ hnodup, List.length_map]
  · intro s hs
    have hfwd : ∃ x, x ∈ pairedFiles samples ∧ fwdMatch s.1 "_R1" x = true := by
      refine ⟨s.1 ++ "_R1" ++ s.2.1, mem_pairedFiles_fwd samples s hs, ?_⟩
      rw [fwdMatch, occursIn_self_lead, occursIn_sandwich]
      rfl
    have hrev2 : ∃ y, y ∈ pairedFiles samples ∧ revMatch s.1 "_R1" "_R2" y = true := by
      refine ⟨s.1 ++ "_R2" ++ s.2.2, mem_pairedFiles_rev samples s hs, ?_⟩
      rw [revMatch, occursIn_self_lead, occursIn_sandwich, hrev s hs]
      rfl
    have hsome := (get_readpair_isSome_iff s.1 (pairedFiles samples) "_R1" "_R2").mpr
      ⟨hfwd, hrev2⟩
    obtain ⟨⟨a, b⟩, hab⟩ := Option.isSome_iff_exists.mp hsome
    obtain ⟨ma, sa, fa, mb, sb, _, rb⟩ :=
      get_readpair_valid s.1 (pairedFiles samples) "_R1" "_R2" a b hab
    exact ⟨a, b, hab, ma, sa, fa, mb, sb, rb⟩

/-- C7 witness at two concrete well-formed samples. -/
theorem c7_batch_pairing_witness :
    (retrieve_sampleids (pairedFiles [("S1", ".fq", ".fq"), ("S2", ".fq", ".fq")])).length =
        ([("S1", ".fq", ".fq"), ("S2", ".fq", ".fq")] :
          List (String × String × String)).length ∧
      ∀ s ∈ ([("S1", ".fq", ".fq"), ("S2", ".fq", ".fq")] :
          List (String × String × String)), ∃ a b,
        get_readpair s.1 (pairedFiles [("S1", ".fq", ".fq"), ("S2", ".fq", ".fq")])
            "_R1" "_R2" = some (a, b) ∧
          a ∈ pairedFiles [("S1", ".fq", ".fq"), ("S2", ".fq", ".fq")] ∧
          occursIn s.1 a = true ∧ occursIn "_R1" a = true ∧
          b ∈ pairedFiles [("S1", ".fq", ".fq"), ("S2", ".fq", ".fq")] ∧
          occursIn s.1 b = true ∧ occursIn "_R2" b = true :=
  c7_batch_pairing [("S1", ".fq", ".fq"), ("S2", ".fq", ".fq")]
    (by decide) (by decide) (by decide)

/-- C8: the claim (and the spec's DiscoveryError) says the scanner fails
with a NotFound condition on a missing input directory.  The code does
not: pathlib's glob selector checks is_dir before scanning and yields an
empty iterator for an absent directory, so retrieve_fastqgz returns the
empty list and assemble_dir completes normally with zero samples - it
proceeds exactly as if the directory were empty, creating only the output
root and invoking no pipeline. -/
theorem c8_missing_dir_silently_empty (out fwd rev : String) :
    retrieveFastqgzFS none = [] ∧
      assembleRun none out fwd rev = Except.ok
        { dirs := makedirsExistOk [] out
          pipelineCalls := []
          cleanupCalls := []
          logs := [] } :=
  ⟨rfl, rfl⟩

/-- C9: directory creation with exist_ok semantics is idempotent: creating
twice equals creating once, the directory exists afterwards, creating an
already existing directory changes nothing and raises no error, and no
duplicate entry appears (a duplicate-free directory table stays
duplicate-free). -/
theorem c9_mkdir_idempotent (dirs : List String) (d : String) :
    makedirsExistOk (makedirsExistOk dirs d) d = makedirsExistOk dirs d ∧
      d ∈ makedirsExistOk dirs d ∧
      (d ∈ dirs → makedirsExistOk dirs d = dirs) ∧
      (dirs.Nodup → (makedirsExistOk dirs d).Nodup) := by
  by_cases hd : d ∈ dirs
  · exact ⟨by simp [makedirsExistOk, hd], by simp [makedirsExistOk, hd],
      fun _ => by simp [makedirsExistOk, hd],
      fun hn => by simp [makedirsExistOk, hd, hn]⟩
  · refine ⟨by simp [makedirsExistOk, hd], by simp [makedirsExistOk, hd],
      fun hc => absurd hc hd, fun hn => ?_⟩
    rw [makedirsExistOk, if_neg hd]
    exact List.Nodup.append hn (List.nodup_singleton d)
      (fun a ha hb => hd ((List.mem_singleton.mp hb) ▸ ha))

/-- C9 witness at a concrete directory table. -/
theorem c9_mkdir_idempotent_witness :
    makedirsExistOk (makedirsExistOk ["out", "out/S1"] "out/S1") "out/S1" =
        makedirsExistOk ["out", "out/S1"] "out/S1" ∧
      "out/S1" ∈ makedirsExistOk ["out", "out/S1"] "out/S1" ∧
      makedirsExistOk ["out", "out/S1"] "out/S1" = ["out", "out/S1"] ∧
      (makedirsExistOk ["out", "out/S1"] "out/S1").Nodup := by
  obtain ⟨h1, h2, h3, h4⟩ := c9_mkdir_idempotent ["out", "out/S1"] "out/S1"
  exact ⟨h1, h2, h3 (by decide), h4 (by decide)⟩

/-- C10: the forward test takes precedence: a candidate containing the
sample id and the forward marker is always written to the forward slot,
the reverse slot never holds a file containing the forward marker, and
when every reverse-marker candidate also contains the forward marker (in
particular when the two markers are equal) pairing fails. -/
theorem c10_forward_marker_precedence (sid fwd rev : String) (l : List String) :
    (∀ (st : PairSlots) (f : String), occursIn sid f = true → occursIn fwd f = true →
        pairStep sid fwd rev st f = { st with r1 := some f }) ∧
      (∀ g, (pairFold sid l fwd rev).r2 = some g →
        occursIn sid g = true ∧ occursIn fwd g = false ∧ occursIn rev g = true) ∧
      ((∀ g, g ∈ l → occursIn rev g = true → occursIn fwd g = true) →
        get_readpair sid l fwd rev = none) ∧
      get_readpair sid l fwd fwd = none := by
  refine ⟨?_, ?_, fun h => get_readpair_none_of_rev_subsumed sid fwd rev l h,
    get_readpair_none_of_rev_subsumed sid fwd fwd l (fun g _ hg => hg)⟩
  · intro st f h1 h2
    rw [pairStep, if_pos h1, if_pos h2]
  · intro g hg
    rw [pairFold_r2] at hg
    obtain ⟨_, hp⟩ := lastMatch_some _ l g hg
    rw [revMatch, Bool.and_eq_true, Bool.and_eq_true, Bool.not_eq_true'] at hp
    exact ⟨hp.1.1, hp.1.2, hp.2⟩

/-- C10 witness: a file carrying both markers fills only the forward slot,
so pairing fails; with equal markers pairing always fails. -/
theorem c10_forward_marker_precedence_witness :
    get_readpair "S" ["S_R1_R2.fq"] "_R1" "_R2" = none ∧
      get_readpair "S" ["S_R1.fq"] "_R1" "_R1" = none :=
  ⟨(c10_forward_marker_precedence "S" "_R1" "_R2" ["S_R1_R2.fq"]).2.2.1 (by decide),
    (c10_forward_marker_precedence "S" "_R1" "_R1" ["S_R1.fq"]).2.2.2⟩
